import Mathlib

/-!
# Verification of the cloud-pricing-monitor normalization core

A shallow embedding of the pricing-normalization engine of the
cloud-pricing-monitor repository (Go), together with proofs about it.

Modelling conventions:
* Go strings are embedded as `List Char` (`GoStr`); the Go standard-library
  string helpers used by the source (`strings.Split`, `strings.Fields`,
  `strings.TrimSpace`, `strings.Contains`, `strings.ToLower/ToUpper`,
  `strconv.ParseFloat`, `strconv.Atoi`, `fmt.Sscanf` with `%d`) are given
  executable models below, restricted to the ASCII fragment the source
  exercises (the Go versions are Unicode-aware; every string constant in the
  source is ASCII).
* Go `float64` values are embedded as `ℚ` with exact decimal semantics;
  floating-point rounding, infinities and range errors of
  `strconv.ParseFloat` are not modelled (hex floats, `Inf`/`NaN` and
  underscore-separated literals are likewise outside the model).
* Go maps (`map[string]interface{}`) are embedded as association lists; the
  list order stands for the (in Go, unspecified) map iteration order.
* Fallible Go functions returning `(T, error)` are embedded as `Except`/
  `Option` values.
-/

/-- Go strings, embedded as lists of characters. -/

abbrev GoStr := List Char

/-- Shorthand turning a Lean string literal into a `GoStr`. -/

def gs (s : String) : GoStr := s.toList

/-- ASCII whitespace, the fragment of `unicode.IsSpace` the source can see. -/

def isSpaceChar (c : Char) : Bool :=
  c = ' ' || c = '\t' || c = '\n' || c = '\r'

/-- Value of a string of decimal digits (most significant first). -/

def digitsToNat (s : GoStr) : Nat :=
  s.foldl (fun n c => 10 * n + (c.toNat - '0'.toNat)) 0

/-- Every character is a decimal digit. -/

def allDigits (s : GoStr) : Bool := s.all Char.isDigit

/-- Accumulator loop behind `splitOnChar`; `cur` holds the current chunk
reversed. -/

def splitAccum (sep : Char) : GoStr → GoStr → List GoStr
  | [], cur => [cur.reverse]
  | c :: rest, cur =>
    if c = sep then cur.reverse :: splitAccum sep rest []
    else splitAccum sep rest (c :: cur)

/-- Model of Go `strings.Split(s, sep)` for a one-character separator:
always returns a non-empty list of chunks, with empty chunks kept. -/

def splitOnChar (sep : Char) (s : GoStr) : List GoStr := splitAccum sep s []

/-- Model of Go `strings.HasPrefix` (used through `strings.Contains`). -/

def leadsWith : GoStr → GoStr → Bool
  | _, [] => true
  | [], _ :: _ => false
  | c :: s, d :: t => (c == d) && leadsWith s t

/-- Model of Go `strings.Contains(s, sub)`. -/

def containsSub : GoStr → GoStr → Bool
  | s, sub =>
    match s with
    | [] => leadsWith [] sub
    | c :: rest => leadsWith (c :: rest) sub || containsSub rest sub

/-- Model of Go `strings.ToLower` on ASCII data. -/

def toLowerL (s : GoStr) : GoStr := s.map Char.toLower

/-- Model of Go `strings.ToUpper` on ASCII data. -/

def toUpperL (s : GoStr) : GoStr := s.map Char.toUpper

/-- Model of Go `strings.TrimSpace`. -/

def trimSpaceL (s : GoStr) : GoStr :=
  ((s.dropWhile isSpaceChar).reverse.dropWhile isSpaceChar).reverse

/-- Accumulator loop behind `fieldsL`; `acc` holds the current token
reversed. -/

def fieldsAux : GoStr → GoStr → List GoStr
  | [], acc => if acc = [] then [] else [acc.reverse]
  | c :: rest, acc =>
    if isSpaceChar c then
      if acc = [] then fieldsAux rest [] else acc.reverse :: fieldsAux rest []
    else fieldsAux rest (c :: acc)

/-- Model of Go `strings.Fields`: whitespace-separated tokens, no empties. -/

def fieldsL (s : GoStr) : List GoStr := fieldsAux s []

/-- Longest digit run at the front of the string, plus the remainder. -/

def spanDigits : GoStr → GoStr × GoStr
  | [] => ([], [])
  | c :: rest =>
    if c.isDigit then
      let (d, r) := spanDigits rest
      (c :: d, r)
    else ([], c :: rest)

/-- Model of `fmt.Sscanf(s, "%d", &v)`: skip leading spaces, optional sign,
then at least one digit; trailing characters are ignored (the Go scanner
stops at the first non-digit and reports success). -/

def sscanfD (s : GoStr) : Option Int :=
  match s.dropWhile isSpaceChar with
  | [] => none
  | c :: r =>
    if c = '+' then
      if (spanDigits r).1 = [] then none else some ((digitsToNat (spanDigits r).1 : Int))
    else if c = '-' then
      if (spanDigits r).1 = [] then none else some (-(digitsToNat (spanDigits r).1 : Int))
    else
      if (spanDigits (c :: r)).1 = [] then none
      else some ((digitsToNat (spanDigits (c :: r)).1 : Int))

/-- Model of Go `strconv.Atoi`: optional sign then a non-empty run of digits
making up the whole string (integer range errors are not modelled). -/

def goAtoi (s : GoStr) : Option Int :=
  match s with
  | [] => none
  | '+' :: r => if r ≠ [] ∧ allDigits r = true then some ((digitsToNat r : Int)) else none
  | '-' :: r => if r ≠ [] ∧ allDigits r = true then some (-(digitsToNat r : Int)) else none
  | _ => if allDigits s = true then some ((digitsToNat s : Int)) else none

/-- Split a float literal at the first exponent marker (`e` or `E`). -/

def splitExpChar : GoStr → GoStr × Option GoStr
  | [] => ([], none)
  | c :: rest =>
    if c = 'e' ∨ c = 'E' then ([], some rest)
    else
      let (m, ex) := splitExpChar rest
      (c :: m, ex)

/-- Unsigned decimal mantissa: `digits`, `digits.digits`, `digits.` or
`.digits`. -/

def parseMantissa (s : GoStr) : Option ℚ :=
  match splitOnChar '.' s with
  | [ip] => if ip ≠ [] ∧ allDigits ip = true then some ((digitsToNat ip : ℚ)) else none
  | [ip, fp] =>
    if (ip ≠ [] ∨ fp ≠ []) ∧ allDigits ip = true ∧ allDigits fp = true then
      some ((digitsToNat ip : ℚ) + (digitsToNat fp : ℚ) / (10 : ℚ) ^ fp.length)
    else none
  | _ => none

/-- Unsigned decimal float with optional exponent (exponent syntax is that
of `strconv.Atoi`, which matches Go's float grammar for the exponent). -/

def parseUnsigned (s : GoStr) : Option ℚ :=
  match splitExpChar s with
  | (m, none) => parseMantissa m
  | (m, some ex) =>
    match parseMantissa m, goAtoi ex with
    | some v, some e => some (v * (10 : ℚ) ^ (e : ℤ))
    | _, _ => none

/-- Model of Go `strconv.ParseFloat(s, 64)` on the decimal fragment, with
exact rational semantics. -/

def goParseFloat (s : GoStr) : Option ℚ :=
  match s with
  | '+' :: r => parseUnsigned r
  | '-' :: r => (parseUnsigned r).map Neg.neg
  | _ => parseUnsigned s

/-! ## Basic lemmas about the string models -/

/-- Model of the region scan in `matchesMemorySku` (an explicit loop over
`sku.ServiceRegions`); Go's `slices.Contains`, used by `matchesVCPUSku`,
has the same semantics. -/

def regionListHas : List GoStr → GoStr → Bool
  | [], _ => false
  | r :: rest, region => if r = region then true else regionListHas rest region

/-! ## Canonical price record and metric sink (metrics.go / part_002)

`VMPricing` embeds the Go struct of the same name. The Prometheus gauge and
counter writes are embedded as a list of `MetricEvent`s: each `Set`/`Inc`
call performed by the Go code appends one event. -/

/-- The canonical normalized price record (Go struct `VMPricing`). -/

structure VMPricing where
  Provider : GoStr
  Region : GoStr
  InstanceType : GoStr
  TotalCost : ℚ
  MemoryGB : ℚ
  VCPUs : Int
  deriving DecidableEq, Repr

/-- A full label set `{provider, region, instance_type}`. -/

structure Labels where
  provider : GoStr
  region : GoStr
  instanceType : GoStr
  deriving DecidableEq, Repr

/-- One metric write performed against the sink. -/

inductive MetricEvent where
  | totalCost (labels : Labels) (v : ℚ)
  | costPerGB (labels : Labels) (v : ℚ)
  | costPerVCPU (labels : Labels) (v : ℚ)
  | pricingErrorInc (provider region : GoStr)
  | lastUpdate (provider region : GoStr)
  deriving DecidableEq, Repr

/-- The label set `RecordPricing` builds from a `VMPricing`. -/

def labelsOf (p : VMPricing) : Labels :=
  ⟨p.Provider, p.Region, p.InstanceType⟩

/-- Embedding of `(*Metrics).RecordPricing` (part_002 lines 65-81): the
total-cost gauge is always set; the per-GB and per-vCPU gauges are set only
behind the `> 0` guards. -/

def RecordPricing (p : VMPricing) : List MetricEvent :=
  [MetricEvent.totalCost (labelsOf p) p.TotalCost]
    ++ (if 0 < p.MemoryGB then
          [MetricEvent.costPerGB (labelsOf p) (p.TotalCost / p.MemoryGB)] else [])
    ++ (if 0 < p.VCPUs then
          [MetricEvent.costPerVCPU (labelsOf p) (p.TotalCost / (p.VCPUs : ℚ))] else [])

/-! ## Provider A: the AWS term-document normalizer (aws.go)

The vendor document is embedded as a JSON value; Go maps decoded from JSON
(`map[string]interface{}`) become association lists, and the Go type
assertions (`x.(map[string]interface{})`, `x.(string)`) become the partial
projections `asObj` / `asStr`. -/

/-- JSON values as decoded by `encoding/json` into `interface{}`. -/

inductive JVal where
  | jstr : GoStr → JVal
  | jnum : ℚ → JVal
  | jbool : Bool → JVal
  | jnull : JVal
  | jarr : List JVal → JVal
  | jobj : List (GoStr × JVal) → JVal

/-- The type assertion `v.(map[string]interface{})`. -/

def asObj : JVal → Option (List (GoStr × JVal))
  | JVal.jobj fields => some fields
  | _ => none

/-- The type assertion `v.(string)`. -/

def asStr : JVal → Option GoStr
  | JVal.jstr s => some s
  | _ => none

/-- Go map indexing `m[key]` (a missing key yields `nil`, which then fails
any type assertion). -/

def jLookup : List (GoStr × JVal) → GoStr → Option JVal
  | [], _ => none
  | (k, v) :: rest, key => if k = key then some v else jLookup rest key

/-- Errors returned by the AWS fetch path (aws.go). -/

inductive AWSErr where
  | noPricingData
  | parseFailed
  | invalidProduct
  | invalidAttributes
  | invalidTerms
  | noOnDemand
  | noValidPricing
  deriving DecidableEq, Repr

/-- Errors returned by `parseMemory` (aws.go lines 200-219). -/

inductive MemErr where
  | badFormat
  | badNumber
  deriving DecidableEq, Repr

/-- Embedding of `parseMemory` (aws.go lines 200-219): trim, split into
whitespace-separated fields, require exactly two, parse the number, and
convert only when the upper-cased unit is exactly `GIB` (multiplier
`1.073741824 = 1073741824/10^9`). -/

def parseMemory (memStr : GoStr) : Except MemErr ℚ :=
  match fieldsL (trimSpaceL memStr) with
  | [a, b] =>
    match goParseFloat a with
    | none => Except.error MemErr.badNumber
    | some value =>
      if toUpperL b = gs "GIB" then
        Except.ok (value * ((1073741824 : ℚ) / 1000000000))
      else Except.ok value
  | _ => Except.error MemErr.badFormat

/-- Outcome of the body of the inner dimension loop (aws.go lines 148-170)
for one price dimension:
* `none`: a structural assertion failed before `ParseFloat` was reached
  (the loop `continue`s, `hourlyPrice` untouched);
* `some none`: `ParseFloat` ran and failed (Go's multiple assignment sets
  `hourlyPrice` to `ParseFloat`'s zero result before the `continue`);
* `some (some v)`: `ParseFloat` returned `v` (the loop `break`s). -/

def dimStep (d : JVal) : Option (Option ℚ) :=
  match asObj d with
  | none => none
  | some dimMap =>
    match (jLookup dimMap (gs "pricePerUnit")).bind asObj with
    | none => none
    | some pricePerUnit =>
      match (jLookup pricePerUnit (gs "USD")).bind asStr with
      | none => none
      | some usdPrice => some (goParseFloat usdPrice)

/-- The inner `for _, dimension := range priceDimensions` loop (aws.go lines
148-170), threading the running `hourlyPrice`. -/

def scanDims (hp : ℚ) : List (GoStr × JVal) → ℚ
  | [] => hp
  | (_, d) :: rest =>
    match dimStep d with
    | none => scanDims hp rest
    | some none => scanDims 0 rest
    | some (some v) => v

/-- Structural descent from one term to its `priceDimensions` map (aws.go
lines 138-146); `none` means the term is `continue`d over. -/

def termStep (t : JVal) : Option (List (GoStr × JVal)) :=
  (asObj t).bind fun termMap => (jLookup termMap (gs "priceDimensions")).bind asObj

/-- The outer `for _, termData := range onDemand` loop (aws.go lines
137-175), including the `if hourlyPrice > 0 { break }` check. -/

def scanTerms (hp : ℚ) : List (GoStr × JVal) → ℚ
  | [] => hp
  | (_, t) :: rest =>
    match termStep t with
    | none => scanTerms hp rest
    | some priceDimensions =>
      let hp2 := scanDims hp priceDimensions
      if 0 < hp2 then hp2 else scanTerms hp2 rest

/-- Embedding of `(*AWSPricingFetcher).FetchPricing` (aws.go lines 33-197)
from the point where the vendor response is in hand: `priceList` is the
decoded `output.PriceList` (each entry already parsed as JSON; `jobj` is
what `json.Unmarshal` into `map[string]interface{}` accepts), and network
errors are outside the model. -/

def fetchPricingAWS (priceList : List JVal) (region instanceType : GoStr) :
    Except AWSErr VMPricing :=
  match priceList with
  | [] => Except.error AWSErr.noPricingData
  | doc :: _ =>
    match asObj doc with
    | none => Except.error AWSErr.parseFailed
    | some priceData =>
      match (jLookup priceData (gs "product")).bind asObj with
      | none => Except.error AWSErr.invalidProduct
      | some product =>
        match (jLookup product (gs "attributes")).bind asObj with
        | none => Except.error AWSErr.invalidAttributes
        | some attributes =>
          let memoryStr := ((jLookup attributes (gs "memory")).bind asStr).getD []
          let vcpuStr := ((jLookup attributes (gs "vcpu")).bind asStr).getD []
          let memory : ℚ := match parseMemory memoryStr with
            | Except.ok v => v
            | Except.error _ => 0
          let vcpu : Int := (goAtoi vcpuStr).getD 0
          match (jLookup priceData (gs "terms")).bind asObj with
          | none => Except.error AWSErr.invalidTerms
          | some terms =>
            match (jLookup terms (gs "OnDemand")).bind asObj with
            | none => Except.error AWSErr.noOnDemand
            | some onDemand =>
              let hourlyPrice := scanTerms 0 onDemand
              if hourlyPrice = 0 then Except.error AWSErr.noValidPricing
              else
                Except.ok
                  ⟨gs "aws", region, instanceType, hourlyPrice, memory, vcpu⟩

/-! ## Provider B: the GCP SKU matcher and shape resolver (part_001)

`Sku` embeds the `cloudbilling.Sku` fields the source reads:
`Description`, `ServiceRegions` and
`PricingInfo[i].PricingExpression.TieredRates[j].UnitPrice.{Units,Nanos}`
(the intermediate `PricingExpression`/`UnitPrice` wrappers are flattened
into the two price components). `Page` is one `ListSkusResponse`. -/

/-- A `UnitPrice` (two-part fixed-point money value). -/

structure TieredRate where
  units : Int
  nanos : Int
  deriving DecidableEq, Repr

/-- One `PricingInfo` entry, reduced to its `PricingExpression.TieredRates`. -/

structure PricingInfo where
  tieredRates : List TieredRate
  deriving DecidableEq, Repr

/-- A catalog line item. -/

structure Sku where
  description : GoStr
  serviceRegions : List GoStr
  pricingInfo : List PricingInfo
  deriving DecidableEq, Repr

/-- One catalog page (`ListSkusResponse.Skus`). -/

structure Page where
  skus : List Sku
  deriving DecidableEq, Repr

/-- `float64(units) + float64(nanos)/1e9` (part_001 lines 93 and 124). -/

def tierPrice (tr : TieredRate) : ℚ := (tr.units : ℚ) + (tr.nanos : ℚ) / 1000000000

/-- The price the source reads off a SKU when it matches: first
`PricingInfo`, first tiered rate — `none` when either list is empty (the
`len(...) > 0` guards fail and the loop moves on). -/

def skuFirstPrice (sku : Sku) : Option ℚ :=
  match sku.pricingInfo with
  | [] => none
  | pi :: _ =>
    match pi.tieredRates with
    | [] => none
    | tr :: _ => some (tierPrice tr)

/-- The family-phrase switch shared verbatim by `matchesVCPUSku` (part_001
lines 152-166) and `matchesMemorySku` (lines 185-199); the Go source
duplicates this block character-for-character in both functions. -/

def familyDescMatch (desc family : GoStr) : Bool :=
  if family = gs "e2" then containsSub desc (gs "e2 instance")
  else if family = gs "n1" then
    containsSub desc (gs "n1 predefined") || containsSub desc (gs "n1 instance")
  else if family = gs "n2" ∨ family = gs "n2d" then
    containsSub desc (gs "n2 instance") || containsSub desc (gs "n2d instance")
  else if family = gs "n4" ∨ family = gs "n4d" then
    containsSub desc (gs "n4 instance") || containsSub desc (gs "n4d instance")
  else if family = gs "c2" ∨ family = gs "c2d" ∨ family = gs "c3" then
    containsSub desc (family ++ gs " instance")
  else containsSub desc family

/-- Embedding of `matchesVCPUSku` (part_001 lines 143-174); the region test
is Go's `slices.Contains(sku.ServiceRegions, region)`, whose semantics
`regionListHas` models. -/

def matchesVCPUSku (sku : Sku) (region family : GoStr) : Bool :=
  let desc := toLowerL sku.description
  if ¬(containsSub desc (gs "core") || containsSub desc (gs "vcpu")) = true then false
  else if ¬(familyDescMatch desc family) = true then false
  else regionListHas sku.serviceRegions region

/-- Embedding of `matchesMemorySku` (part_001 lines 176-213); the region
test is an explicit loop over `sku.ServiceRegions`, which is exactly
`regionListHas`. -/

def matchesMemorySku (sku : Sku) (region family : GoStr) : Bool :=
  let desc := toLowerL sku.description
  if ¬(containsSub desc (gs "ram") || containsSub desc (gs "memory")) = true then false
  else if ¬(familyDescMatch desc family) = true then false
  else regionListHas sku.serviceRegions region

/-- One execution of the per-page callback body (part_001 lines 86-97):
scan the page's SKUs in order; the first SKU that matches and carries a
price yields that price and a `return nil` out of the callback (skipping
the rest of the page); a matching SKU without pricing data is stepped
over. -/

def pageFirstMatch (f : Sku → Bool) : List Sku → Option ℚ
  | [] => none
  | sku :: rest =>
    if f sku then
      match skuFirstPrice sku with
      | some p => some p
      | none => pageFirstMatch f rest
    else pageFirstMatch f rest

/-- The whole `call.Pages(ctx, ...)` run (part_001 lines 85-99): returning
`nil` from the callback does NOT stop pagination, so every page is visited
and each page with a match overwrites the captured `price` variable; a page
without a match leaves it untouched. -/

def pagesScanPrice (f : Sku → Bool) (pages : List Page) : ℚ :=
  pages.foldl (fun price page => (pageFirstMatch f page.skus).getD price) 0

/-- A resolved machine shape: the named return values `(family, vcpus,
memoryGB)` of `parseMachineType`. -/

structure MachineShape where
  family : GoStr
  vcpus : Int
  memoryGB : ℚ
  deriving DecidableEq, Repr

/-- The three distinct error returns of `parseMachineType` (part_001 lines
216-267): `invalidFormat` is "invalid machine type format", `invalidVCPU`
is "invalid vCPU count in machine type" (a failed `Sscanf`), and
`undeterminedVCPU` is "could not determine vCPU count". -/

inductive MTErr where
  | invalidFormat
  | invalidVCPU
  | undeterminedVCPU
  deriving DecidableEq, Repr

/-- The per-class memory ratio switch (part_001 lines 254-264):
`3.75`, `6.5`, `0.9` GB per vCPU, with a `4.0` default. -/

def memOf (machineCls : GoStr) (vcpuCount : Int) : ℚ :=
  if machineCls = gs "standard" then (vcpuCount : ℚ) * (15 / 4)
  else if machineCls = gs "highmem" then (vcpuCount : ℚ) * (13 / 2)
  else if machineCls = gs "highcpu" then (vcpuCount : ℚ) * (9 / 10)
  else (vcpuCount : ℚ) * 4

/-- Embedding of `parseMachineType` (part_001 lines 216-267): split on `-`,
require two tokens, check the fixed-shape table on the whole identifier,
otherwise `Sscanf` the third token (when present) into the core count,
reject a zero count, and derive memory from the class ratio. -/

def parseMachineType (machineType : GoStr) : Except MTErr MachineShape :=
  match splitOnChar '-' machineType with
  | family :: machineCls :: restParts =>
    if machineType = gs "e2-micro" then Except.ok ⟨gs "e2", 2, 1⟩
    else if machineType = gs "e2-small" then Except.ok ⟨gs "e2", 2, 2⟩
    else if machineType = gs "e2-medium" then Except.ok ⟨gs "e2", 2, 4⟩
    else if machineType = gs "f1-micro" then Except.ok ⟨gs "f1", 1, 3 / 5⟩
    else if machineType = gs "g1-small" then Except.ok ⟨gs "g1", 1, 17 / 10⟩
    else
      match restParts with
      | [] => Except.error MTErr.undeterminedVCPU
      | p2 :: _ =>
        match sscanfD p2 with
        | none => Except.error MTErr.invalidVCPU
        | some vcpuCount =>
          if vcpuCount = 0 then Except.error MTErr.undeterminedVCPU
          else Except.ok ⟨family, vcpuCount, memOf machineCls vcpuCount⟩
  | _ => Except.error MTErr.invalidFormat

/-- Errors of the GCP fetch path (part_001). -/

inductive GCPErr where
  | noVCPUPricing
  | noMemoryPricing
  | badMachineType (e : MTErr)
  deriving DecidableEq, Repr

/-- Embedding of `getVCPUPrice` (part_001 lines 79-110): run the paginated
scan with the vCPU matcher, then fail iff the resulting price is zero. -/

def getVCPUPrice (pages : List Page) (region family : GoStr) : Except GCPErr ℚ :=
  let price := pagesScanPrice (fun sku => matchesVCPUSku sku region family) pages
  if price = 0 then Except.error GCPErr.noVCPUPricing else Except.ok price

/-- Embedding of `getMemoryPrice` (part_001 lines 112-141). -/

def getMemoryPrice (pages : List Page) (region family : GoStr) : Except GCPErr ℚ :=
  let price := pagesScanPrice (fun sku => matchesMemorySku sku region family) pages
  if price = 0 then Except.error GCPErr.noMemoryPricing else Except.ok price

/-- Embedding of `(*GCPPricingFetcher).FetchPricing` (part_001 lines
29-77): resolve the machine shape, look up the per-vCPU and per-GB unit
prices against the billing catalog (`pages` stands for the catalog the two
`Skus.List` calls page through), and compose
`totalCost = vcpuPrice*vcpus + memoryPrice*memoryGB`. -/

def fetchPricingGCP (pages : List Page) (region machineType : GoStr) :
    Except GCPErr VMPricing :=
  match parseMachineType machineType with
  | Except.error e => Except.error (GCPErr.badMachineType e)
  | Except.ok shape =>
    match getVCPUPrice pages region shape.family with
    | Except.error e => Except.error e
    | Except.ok vcpuPrice =>
      match getMemoryPrice pages region shape.family with
      | Except.error e => Except.error e
      | Except.ok memoryPrice =>
        let totalCost := vcpuPrice * (shape.vcpus : ℚ) + memoryPrice * shape.memoryGB
        Except.ok ⟨gs "gcp", region, machineType, totalCost, shape.memoryGB, shape.vcpus⟩

/-! ## The scheduler pass (monitor.go)

One fetch pass is embedded as the list of metric events it produces plus
the error value it returns. Per-target outcomes (which in Go depend on the
network) are abstracted as outcome functions from (region, instanceType) to
the fetcher result, so a theorem can quantify over every combination of
per-target outcomes. The concurrent goroutines of a pass share no state
except the sink, so the pass's event multiset is modelled by the
region-major, instance-type-minor order of the spawning loops. -/

/-- Opaque Go error values (only their presence matters to the pass). -/

abbrev GoErr := GoStr

/-- The `regions × instanceTypes` cross product built by the nested
spawning loops in `fetchAllPricing` (monitor.go lines 77-98). -/

def crossPairs (regions instanceTypes : List GoStr) : List (GoStr × GoStr) :=
  regions.flatMap fun r => instanceTypes.map fun it => (r, it)

/-- Embedding of `fetchAWSPricing` (monitor.go lines 106-132): a failed
fetch increments the failure counter and returns; a successful one records
the price point and the last-update timestamp. Nothing is ever propagated
to the caller. -/

def fetchAWSPricingEvents (res : Except GoErr VMPricing) (region : GoStr) :
    List MetricEvent :=
  match res with
  | Except.error _ => [MetricEvent.pricingErrorInc (gs "aws") region]
  | Except.ok vm => RecordPricing vm ++ [MetricEvent.lastUpdate (gs "aws") region]

/-- Embedding of `fetchGCPPricing` (monitor.go lines 134-160). -/

def fetchGCPPricingEvents (res : Except GoErr VMPricing) (region : GoStr) :
    List MetricEvent :=
  match res with
  | Except.error _ => [MetricEvent.pricingErrorInc (gs "gcp") region]
  | Except.ok vm => RecordPricing vm ++ [MetricEvent.lastUpdate (gs "gcp") region]

/-- Embedding of `fetchAllPricing` (monitor.go lines 70-104): `hasAWS` /
`hasGCP` model the `m.awsFetcher != nil` / `m.gcpFetcher != nil` guards
(set in `Start` iff the provider has configured regions); the function
returns the sink events of the pass together with its Go return value,
which is the literal `return nil` on line 103. -/

def fetchAllPricing (hasAWS hasGCP : Bool)
    (awsRegions awsInstanceTypes gcpRegions gcpInstanceTypes : List GoStr)
    (awsOutcome gcpOutcome : GoStr → GoStr → Except GoErr VMPricing) :
    List MetricEvent × Option GoErr :=
  ((if hasAWS then
      (crossPairs awsRegions awsInstanceTypes).flatMap fun p =>
        fetchAWSPricingEvents (awsOutcome p.1 p.2) p.1
    else [])
    ++ (if hasGCP then
      (crossPairs gcpRegions gcpInstanceTypes).flatMap fun p =>
        fetchGCPPricingEvents (gcpOutcome p.1 p.2) p.1
    else []),
   none)

/-! ## Spec-side reference definitions

The next definitions are NOT translations of the source; they follow the
wording of the specification and exist to be compared against the source
embeddings (refinement/counterexample material). -/

/-- Spec wording for provider A (spec §4.1): "take the first dimension
whose `pricePerUnit.USD` parses as a positive float". Dimensions whose USD
is absent, unparseable, or parses non-positive are skipped. -/

def dimsFirstPositive : List (GoStr × JVal) → Option ℚ
  | [] => none
  | (_, d) :: rest =>
    match dimStep d with
    | some (some v) => if 0 < v then some v else dimsFirstPositive rest
    | _ => dimsFirstPositive rest

/-- Spec wording for provider A, lifted over the `terms.OnDemand` map:
first positive-parsing dimension in iteration order (terms in order,
dimensions in order within a term). -/

def specFirstPositiveUSD : List (GoStr × JVal) → Option ℚ
  | [] => none
  | (_, t) :: rest =>
    match termStep t with
    | none => specFirstPositiveUSD rest
    | some priceDimensions =>
      match dimsFirstPositive priceDimensions with
      | some v => some v
      | none => specFirstPositiveUSD rest

/-- Spec wording for the SkuMatcher (spec §4.3): "the first encountered in
catalog page order is taken — no later match replaces an earlier one". -/

def specFirstMatchPrice (f : Sku → Bool) : List Page → Option ℚ
  | [] => none
  | pg :: rest =>
    match pageFirstMatch f pg.skus with
    | some p => some p
    | none => specFirstMatchPrice f rest

/-- What the source actually computes across pages: the first match WITHIN
a page wins for that page, but a later page's match replaces an earlier
page's (pagination is never stopped). -/

def lastMatchAcrossPages (f : Sku → Bool) : List Page → Option ℚ
  | [] => none
  | pg :: rest =>
    match lastMatchAcrossPages f rest with
    | some p => some p
    | none => pageFirstMatch f pg.skus

/-! ## Lemmas about digit scanning -/

/-! ## Lemmas about `fieldsL` and `trimSpaceL` -/

/-! ## Claim C10: parseMemory leaves non-GiB units unconverted -/

/-! ## Claim C5: derived metrics are emitted iff their denominator is positive -/

/-! ## Claim C9: a pass never returns an error -/

/-! ## Lemmas about `parseMachineType` -/

/-- Decidable equality for `Except`, so concrete fetch results can be
checked by `decide`. -/

instance exceptDecEq {e a : Type} [DecidableEq e] [DecidableEq a] :
    DecidableEq (Except e a) := fun x y =>
  match x, y with
  | Except.ok u, Except.ok w =>
    if h : u = w then isTrue (by rw [h]) else isFalse (by simp [h])
  | Except.error u, Except.error w =>
    if h : u = w then isTrue (by rw [h]) else isFalse (by simp [h])
  | Except.ok _, Except.error _ => isFalse (by simp)
  | Except.error _, Except.ok _ => isFalse (by simp)

/-! ## Claim C6: fixed-shape table and standard-class resolution -/

/-! ## Claim C7: resolver failure conditions (corrected) -/

/-! ## Lemmas about the SKU pagination scan -/

/-! ## Claim C3: first-match across catalog pages (corrected) -/

/-- A vCPU SKU for family n2 in us-central1 priced at 0.01 USD/unit. -/

def c3CoreSkuA : Sku :=
  ⟨gs "N2 Instance Core running in Americas", [gs "us-central1"], [⟨[⟨0, 10000000⟩]⟩]⟩

/-- A second vCPU SKU for the same query priced at 0.02 USD/unit. -/

def c3CoreSkuB : Sku :=
  ⟨gs "N2 Instance Core running in Americas", [gs "us-central1"], [⟨[⟨0, 20000000⟩]⟩]⟩

/-- Two catalog pages, each containing one matching SKU. -/

def c3Pages : List Page := [⟨[c3CoreSkuA]⟩, ⟨[c3CoreSkuB]⟩]

/-! ## Claim C8: a returned price always comes from a region-matching SKU -/

/-- The spec's end-to-end scenario B catalog: one core SKU at 0.03 USD and
one memory SKU at 0.004 USD, both covering us-central1 and mentioning
"n2 instance". -/

def scenarioBPages : List Page :=
  [⟨[⟨gs "N2 Instance Core running in Americas", [gs "us-central1"], [⟨[⟨0, 30000000⟩]⟩]⟩,
     ⟨gs "N2 Instance Ram running in Americas", [gs "us-central1"], [⟨[⟨0, 4000000⟩]⟩]⟩]⟩]

/-! ## Claim C4: provider-B total cost composition -/

/-! ## Nonnegativity predicates on vendor data (claim C1 material) -/

/-- Every dimension whose USD string reaches `ParseFloat` successfully
parses to a nonnegative value. -/

def dimsNonneg (dims : List (GoStr × JVal)) : Bool :=
  dims.all fun p =>
    match dimStep p.2 with
    | some (some v) => decide (0 ≤ v)
    | _ => true

/-- `dimsNonneg` over every term of an `OnDemand` map. -/

def termsNonneg (od : List (GoStr × JVal)) : Bool :=
  od.all fun p =>
    match termStep p.2 with
    | some pd => dimsNonneg pd
    | none => true

/-- `termsNonneg` read off a raw price list, following the same structural
descent as `fetchPricingAWS` (vacuously true when the descent fails, since
the fetch then errors before using a price). -/

def awsPriceListNonneg (priceList : List JVal) : Bool :=
  match priceList with
  | [] => true
  | doc :: _ =>
    match asObj doc with
    | none => true
    | some priceData =>
      match (jLookup priceData (gs "terms")).bind asObj with
      | none => true
      | some terms =>
        match (jLookup terms (gs "OnDemand")).bind asObj with
        | none => true
        | some onDemand => termsNonneg onDemand

/-- Every SKU carrying a price has a nonnegative first-tier price. -/

def pagesNonneg (pages : List Page) : Bool :=
  pages.all fun pg => pg.skus.all fun sku =>
    match skuFirstPrice sku with
    | some p => decide (0 ≤ p)
    | none => true

/-- Every dimension whose USD string parses at all parses strictly
positive (claim C2's amended hypothesis). -/

def dimsAllPos (dims : List (GoStr × JVal)) : Bool :=
  dims.all fun p =>
    match dimStep p.2 with
    | some (some v) => decide (0 < v)
    | _ => true

/-- `dimsAllPos` over every term of an `OnDemand` map. -/

def termsAllPos (od : List (GoStr × JVal)) : Bool :=
  od.all fun p =>
    match termStep p.2 with
    | some pd => dimsAllPos pd
    | none => true

/-! ## Claim C1: the positivity invariant on emitted price points (corrected) -/

/-- A price dimension JSON object whose `pricePerUnit.USD` is the given
string. -/

def usdDim (s : String) : JVal :=
  JVal.jobj [(gs "pricePerUnit", JVal.jobj [(gs "USD", JVal.jstr (gs s))])]

/-- A raw provider-A document whose only dimension carries the USD price
string `"-0.5"` (and no usable shape attributes). -/

def c1NegDoc : JVal :=
  JVal.jobj [(gs "product", JVal.jobj [(gs "attributes", JVal.jobj [])]),
    (gs "terms", JVal.jobj [(gs "OnDemand", JVal.jobj
      [(gs "term1", JVal.jobj [(gs "priceDimensions",
        JVal.jobj [(gs "d1", usdDim "-0.5")])])])])]

/-- The spec's end-to-end scenario A document: `attributes.memory = "8
GiB"`, `attributes.vcpu = "2"` and a single on-demand dimension at USD
`"0.0416"`. -/

def scenarioADoc : JVal :=
  JVal.jobj [(gs "product", JVal.jobj [(gs "attributes", JVal.jobj
      [(gs "memory", JVal.jstr (gs "8 GiB")), (gs "vcpu", JVal.jstr (gs "2"))])]),
    (gs "terms", JVal.jobj [(gs "OnDemand", JVal.jobj
      [(gs "term1", JVal.jobj [(gs "priceDimensions",
        JVal.jobj [(gs "d1", usdDim "0.0416")])])])])]

/-- A provider-A document like `c1NegDoc` but with the positive scenario-A
price string. -/

def c1PosDoc : JVal :=
  JVal.jobj [(gs "product", JVal.jobj [(gs "attributes", JVal.jobj [])]),
    (gs "terms", JVal.jobj [(gs "OnDemand", JVal.jobj
      [(gs "term1", JVal.jobj [(gs "priceDimensions",
        JVal.jobj [(gs "d1", usdDim "0.0416")])])])])]

/-! ## Claim C2: first positive dimension in the OnDemand scan (corrected) -/

/-- An `OnDemand` map with one term whose dimensions are a zero-priced
dimension followed by a 0.05-priced one. -/

def c2OnDemand : List (GoStr × JVal) :=
  [(gs "term1", JVal.jobj [(gs "priceDimensions",
    JVal.jobj [(gs "d1", usdDim "0"), (gs "d2", usdDim "0.05")])])]

/-- A full provider-A document around `c2OnDemand`. -/

def c2Doc : JVal :=
  JVal.jobj [(gs "product", JVal.jobj [(gs "attributes", JVal.jobj [])]),
    (gs "terms", JVal.jobj [(gs "OnDemand", JVal.jobj c2OnDemand)])]

/-- An `OnDemand` map with an unparseable dimension before a positive one,
satisfying the amended hypothesis. -/

def c2WitnessOnDemand : List (GoStr × JVal) :=
  [(gs "term1", JVal.jobj [(gs "priceDimensions",
    JVal.jobj [(gs "d1", usdDim "N/A"), (gs "d2", usdDim "0.05")])])]
/-! ## Theorems -/

theorem splitAccum_ne_nil (sep : Char) (s cur : GoStr) : splitAccum sep s cur ≠ [] := by
  induction s generalizing cur with
  | nil => simp [splitAccum]
  | cons c rest ih =>
    simp only [splitAccum]
    by_cases hc : c = sep
    · simp [hc]
    · simp only [if_neg hc]
      exact ih (c :: cur)

theorem splitOnChar_ne_nil (sep : Char) (s : GoStr) : splitOnChar sep s ≠ [] :=
  splitAccum_ne_nil sep s []

theorem splitAccum_of_not_mem {sep : Char} {s : GoStr} (cur : GoStr) (h : sep ∉ s) :
    splitAccum sep s cur = [cur.reverse ++ s] := by
  induction s generalizing cur with
  | nil => simp [splitAccum]
  | cons c rest ih =>
    have hc : c ≠ sep := fun hh => h (hh ▸ List.mem_cons_self c rest)
    have hr : sep ∉ rest := fun hh => h (List.mem_cons_of_mem c hh)
    simp only [splitAccum, if_neg hc, ih (c :: cur) hr]
    simp

theorem splitOnChar_of_not_mem {sep : Char} {s : GoStr} (h : sep ∉ s) :
    splitOnChar sep s = [s] := by
  simpa [splitOnChar] using splitAccum_of_not_mem [] h

theorem splitAccum_append_sep {sep : Char} {a : GoStr} (b cur : GoStr) (h : sep ∉ a) :
    splitAccum sep (a ++ sep :: b) cur = (cur.reverse ++ a) :: splitAccum sep b [] := by
  induction a generalizing cur with
  | nil => simp [splitAccum]
  | cons c rest ih =>
    have hc : c ≠ sep := fun hh => h (hh ▸ List.mem_cons_self c rest)
    have hr : sep ∉ rest := fun hh => h (List.mem_cons_of_mem c hh)
    simp only [List.cons_append, splitAccum, if_neg hc, List.append_eq]
    rw [ih (c :: cur) hr]
    simp

theorem splitOnChar_append_sep {sep : Char} {a : GoStr} (b : GoStr) (h : sep ∉ a) :
    splitOnChar sep (a ++ sep :: b) = a :: splitOnChar sep b := by
  simpa [splitOnChar] using splitAccum_append_sep b [] h

theorem not_mem_of_mem_splitAccum {sep : Char} {s t cur : GoStr}
    (hcur : sep ∉ cur) (h : t ∈ splitAccum sep s cur) : sep ∉ t := by
  induction s generalizing cur with
  | nil =>
    simp only [splitAccum, List.mem_singleton] at h
    subst h
    simpa using hcur
  | cons c rest ih =>
    simp only [splitAccum] at h
    by_cases hc : c = sep
    · rw [if_pos hc] at h
      rcases List.mem_cons.mp h with h1 | h1
      · subst h1
        simpa using hcur
      · exact ih (by simp) h1
    · rw [if_neg hc] at h
      refine ih ?_ h
      intro hmem
      rcases List.mem_cons.mp hmem with h2 | h2
      · exact hc h2.symm
      · exact hcur h2

theorem not_mem_of_mem_splitOnChar {sep : Char} {s t : GoStr}
    (h : t ∈ splitOnChar sep s) : sep ∉ t :=
  not_mem_of_mem_splitAccum (by simp) h

theorem regionListHas_iff (rs : List GoStr) (r : GoStr) :
    regionListHas rs r = true ↔ r ∈ rs := by
  induction rs with
  | nil => simp [regionListHas]
  | cons x rest ih =>
    simp only [regionListHas]
    by_cases hx : x = r
    · simp [hx]
    · rw [if_neg hx, ih]
      constructor
      · exact fun hm => List.mem_cons_of_mem x hm
      · intro hm
        rcases List.mem_cons.mp hm with h1 | h1
        · exact absurd h1.symm hx
        · exact h1

theorem mem_of_mem_dropWhile {p : Char → Bool} {s : GoStr} {c : Char}
    (h : c ∈ s.dropWhile p) : c ∈ s := by
  induction s with
  | nil => simp at h
  | cons x rest ih =>
    rw [List.dropWhile_cons] at h
    by_cases hx : p x = true
    · rw [if_pos hx] at h
      exact List.mem_cons_of_mem x (ih h)
    · rw [if_neg hx] at h
      exact h

theorem spanDigits_all {s : GoStr} (hall : allDigits s = true) : spanDigits s = (s, []) := by
  induction s with
  | nil => simp [spanDigits]
  | cons c t ih =>
    simp only [allDigits, List.all_cons, Bool.and_eq_true] at hall
    obtain ⟨hc, ht⟩ := hall
    simp [spanDigits, hc, ih ht]

theorem isSpaceChar_of_isDigit {c : Char} (hc : c.isDigit = true) : isSpaceChar c = false := by
  cases hsp : isSpaceChar c with
  | false => rfl
  | true =>
    exfalso
    rw [isSpaceChar] at hsp
    simp only [Bool.or_eq_true, decide_eq_true_eq] at hsp
    rcases hsp with ((h | h) | h) | h <;> subst h <;> exact absurd hc (by decide)

theorem sscanfD_all_digits {s : GoStr} (hne : s ≠ []) (hall : allDigits s = true) :
    sscanfD s = some ((digitsToNat s : Int)) := by
  obtain ⟨c, t, rfl⟩ := List.exists_cons_of_ne_nil hne
  have hc : c.isDigit = true := by
    simp only [allDigits, List.all_cons, Bool.and_eq_true] at hall
    exact hall.1
  have hdrop : (c :: t).dropWhile isSpaceChar = c :: t := by
    rw [List.dropWhile_cons, isSpaceChar_of_isDigit hc]
    simp
  have h1 : c ≠ '+' := by intro h; rw [h] at hc; exact absurd hc (by decide)
  have h2 : c ≠ '-' := by intro h; rw [h] at hc; exact absurd hc (by decide)
  simp only [sscanfD, hdrop]
  rw [if_neg h1, if_neg h2, spanDigits_all hall]
  simp

theorem sscanfD_nonneg {s : GoStr} {v : Int} (hs : '-' ∉ s) (h : sscanfD s = some v) :
    0 ≤ v := by
  cases hd : s.dropWhile isSpaceChar with
  | nil => simp [sscanfD, hd] at h
  | cons c r =>
    simp only [sscanfD, hd] at h
    have hcs : c ∈ s := mem_of_mem_dropWhile (hd ▸ List.mem_cons_self c r)
    have hcm : c ≠ '-' := fun hh => hs (hh ▸ hcs)
    by_cases hp : c = '+'
    · rw [if_pos hp] at h
      by_cases hz : (spanDigits r).1 = []
      · rw [if_pos hz] at h; simp at h
      · rw [if_neg hz] at h
        injection h with h
        rw [← h]
        exact Int.ofNat_nonneg _
    · rw [if_neg hp, if_neg hcm] at h
      by_cases hz : (spanDigits (c :: r)).1 = []
      · rw [if_pos hz] at h; simp at h
      · rw [if_neg hz] at h
        injection h with h
        rw [← h]
        exact Int.ofNat_nonneg _

theorem fieldsAux_append_nospace {s : GoStr} (t acc : GoStr)
    (h : ∀ c ∈ s, isSpaceChar c = false) :
    fieldsAux (s ++ t) acc = fieldsAux t (s.reverse ++ acc) := by
  induction s generalizing acc with
  | nil => simp
  | cons c rest ih =>
    have hc : isSpaceChar c = false := h c (List.mem_cons_self c rest)
    have hr : ∀ x ∈ rest, isSpaceChar x = false :=
      fun x hx => h x (List.mem_cons_of_mem c hx)
    simp only [List.cons_append, fieldsAux, hc, List.append_eq, Bool.false_eq_true, if_false]
    rw [ih (c :: acc) hr]
    simp

theorem fieldsL_two_tokens {num unitPart : GoStr}
    (hnum : num ≠ []) (hunit : unitPart ≠ [])
    (h1 : ∀ c ∈ num, isSpaceChar c = false) (h2 : ∀ c ∈ unitPart, isSpaceChar c = false) :
    fieldsL (num ++ ' ' :: unitPart) = [num, unitPart] := by
  have hrev : num.reverse ≠ [] := by simpa using hnum
  have hrev2 : unitPart.reverse ≠ [] := by simpa using hunit
  have hlast : fieldsAux unitPart [] = [unitPart] := by
    have h0 := fieldsAux_append_nospace (s := unitPart) [] [] h2
    rw [List.append_nil] at h0
    rw [h0, List.append_nil, fieldsAux, if_neg hrev2, List.reverse_reverse]
  unfold fieldsL
  rw [fieldsAux_append_nospace (' ' :: unitPart) [] h1, List.append_nil, fieldsAux,
    if_pos (by decide : isSpaceChar ' ' = true), if_neg hrev, hlast,
    List.reverse_reverse]

theorem trimSpaceL_clean {num unitPart : GoStr}
    (hnum : num ≠ []) (hunit : unitPart ≠ [])
    (h1 : ∀ c ∈ num, isSpaceChar c = false) (h2 : ∀ c ∈ unitPart, isSpaceChar c = false) :
    trimSpaceL (num ++ ' ' :: unitPart) = num ++ ' ' :: unitPart := by
  obtain ⟨a, nt, rfl⟩ := List.exists_cons_of_ne_nil hnum
  have ha : isSpaceChar a = false := h1 a (List.mem_cons_self a nt)
  have hdrop1 : (((a :: nt) ++ ' ' :: unitPart).dropWhile isSpaceChar)
      = (a :: nt) ++ ' ' :: unitPart := by
    rw [List.cons_append, List.dropWhile_cons, ha]
    simp
  obtain ⟨b, ub, hub⟩ : ∃ b ub, unitPart.reverse = b :: ub := by
    cases hu : unitPart.reverse with
    | nil => exact absurd (List.reverse_eq_nil_iff.mp hu) hunit
    | cons b ub => exact ⟨b, ub, rfl⟩
  have hb : isSpaceChar b = false := by
    refine h2 b ?_
    have : b ∈ unitPart.reverse := hub ▸ List.mem_cons_self b ub
    exact List.mem_reverse.mp this
  have hrev : ((a :: nt) ++ ' ' :: unitPart).reverse
      = b :: (ub ++ ' ' :: (a :: nt).reverse) := by
    rw [List.reverse_append, List.reverse_cons, hub]
    simp
  rw [trimSpaceL, hdrop1, hrev, List.dropWhile_cons, hb]
  simp only [Bool.false_eq_true, if_false]
  rw [← hrev, List.reverse_reverse]

/-- C10. For every memory string of the form `<number> <unit>` where the
unit token is not `GiB` (case-insensitively, since the source upper-cases
it before comparing with `GIB`), `parseMemory` returns the parsed numeric
value unchanged and without error; only a unit whose upper-casing is
exactly `GIB` triggers the binary-to-decimal conversion by
`1.073741824`. -/
theorem claim_C10 (num unitPart : GoStr) (v : ℚ)
    (hnum : num ≠ []) (hunit : unitPart ≠ [])
    (h1 : ∀ c ∈ num, isSpaceChar c = false) (h2 : ∀ c ∈ unitPart, isSpaceChar c = false)
    (hv : goParseFloat num = some v) :
    (toUpperL unitPart ≠ gs "GIB" →
      parseMemory (num ++ ' ' :: unitPart) = Except.ok v)
    ∧ (toUpperL unitPart = gs "GIB" →
      parseMemory (num ++ ' ' :: unitPart)
        = Except.ok (v * ((1073741824 : ℚ) / 1000000000))) := by
  have hred : parseMemory (num ++ ' ' :: unitPart)
      = (if toUpperL unitPart = gs "GIB" then
          Except.ok (v * ((1073741824 : ℚ) / 1000000000)) else Except.ok v) := by
    unfold parseMemory
    rw [trimSpaceL_clean hnum hunit h1 h2, fieldsL_two_tokens hnum hunit h1 h2]
    simp [hv]
  constructor
  · intro hne
    rw [hred, if_neg hne]
  · intro heq
    rw [hred, if_pos heq]

/-- Witness for C10 at the concrete inputs named by the claim:
`"1024 MiB"` parses to `1024` and `"8 GB"` to `8`, both unconverted. -/
theorem claim_C10_witness :
    parseMemory (gs "1024" ++ ' ' :: gs "MiB") = Except.ok 1024
    ∧ parseMemory (gs "8" ++ ' ' :: gs "GB") = Except.ok 8 := by
  constructor
  · exact (claim_C10 (gs "1024") (gs "MiB") 1024 (by decide) (by decide) (by decide)
      (by decide) (by decide)).1 (by decide)
  · exact (claim_C10 (gs "8") (gs "GB") 8 (by decide) (by decide) (by decide)
      (by decide) (by decide)).1 (by decide)

/-- C5. For every `VMPricing` recorded into the sink, the total-cost gauge
is always written; the cost-per-GB gauge is written iff `MemoryGB > 0`; and
the cost-per-vCPU gauge is written iff `VCPUs > 0` — a zero denominator
suppresses exactly that one derived metric. -/
theorem claim_C5 (p : VMPricing) :
    MetricEvent.totalCost (labelsOf p) p.TotalCost ∈ RecordPricing p
    ∧ ((∃ v, MetricEvent.costPerGB (labelsOf p) v ∈ RecordPricing p) ↔ 0 < p.MemoryGB)
    ∧ ((∃ v, MetricEvent.costPerVCPU (labelsOf p) v ∈ RecordPricing p) ↔ 0 < p.VCPUs) := by
  by_cases hm : 0 < p.MemoryGB <;> by_cases hc : 0 < p.VCPUs <;>
    simp [RecordPricing, hm, hc]

/-- C9. For every configuration and every combination of per-target fetch
outcomes, `fetchAllPricing` returns `nil` (so the pass-level error branches
in `Start` and `pollPricing` are unreachable); a failing target is instead
recorded through the failure counter for its `(provider, region)` pair. -/
theorem claim_C9 (hasAWS hasGCP : Bool)
    (awsRegions awsInstanceTypes gcpRegions gcpInstanceTypes : List GoStr)
    (awsOutcome gcpOutcome : GoStr → GoStr → Except GoErr VMPricing) :
    (fetchAllPricing hasAWS hasGCP awsRegions awsInstanceTypes gcpRegions
        gcpInstanceTypes awsOutcome gcpOutcome).2 = none
    ∧ (∀ r it e, hasAWS = true → (r, it) ∈ crossPairs awsRegions awsInstanceTypes →
        awsOutcome r it = Except.error e →
        MetricEvent.pricingErrorInc (gs "aws") r ∈
          (fetchAllPricing hasAWS hasGCP awsRegions awsInstanceTypes gcpRegions
            gcpInstanceTypes awsOutcome gcpOutcome).1)
    ∧ (∀ r it e, hasGCP = true → (r, it) ∈ crossPairs gcpRegions gcpInstanceTypes →
        gcpOutcome r it = Except.error e →
        MetricEvent.pricingErrorInc (gs "gcp") r ∈
          (fetchAllPricing hasAWS hasGCP awsRegions awsInstanceTypes gcpRegions
            gcpInstanceTypes awsOutcome gcpOutcome).1) := by
  refine ⟨rfl, ?_, ?_⟩
  · intro r it e hA hmem hout
    simp only [fetchAllPricing, if_pos hA]
    refine List.mem_append.mpr (Or.inl ?_)
    refine List.mem_flatMap.mpr ⟨(r, it), hmem, ?_⟩
    simp [fetchAWSPricingEvents, hout]
  · intro r it e hG hmem hout
    simp only [fetchAllPricing, if_pos hG]
    refine List.mem_append.mpr (Or.inr ?_)
    refine List.mem_flatMap.mpr ⟨(r, it), hmem, ?_⟩
    simp [fetchGCPPricingEvents, hout]

/-- Witness for C9: a one-target AWS configuration whose only fetch fails;
the pass still returns `nil` and the failure counter event is present. -/
theorem claim_C9_witness :
    (fetchAllPricing true false [gs "us-east-1"] [gs "t3.micro"] [] []
        (fun _ _ => Except.error (gs "boom")) (fun _ _ => Except.error [])).2 = none
    ∧ MetricEvent.pricingErrorInc (gs "aws") (gs "us-east-1") ∈
        (fetchAllPricing true false [gs "us-east-1"] [gs "t3.micro"] [] []
          (fun _ _ => Except.error (gs "boom")) (fun _ _ => Except.error [])).1 := by
  refine ⟨?_, ?_⟩
  · exact (claim_C9 true false [gs "us-east-1"] [gs "t3.micro"] [] []
      (fun _ _ => Except.error (gs "boom")) (fun _ _ => Except.error [])).1
  · exact (claim_C9 true false [gs "us-east-1"] [gs "t3.micro"] [] []
      (fun _ _ => Except.error (gs "boom")) (fun _ _ => Except.error [])).2.1
      (gs "us-east-1") (gs "t3.micro") (gs "boom") rfl (by decide) rfl

theorem ne_of_splitOnChar_ne {mt key : GoStr} {l1 l2 : List GoStr}
    (h : splitOnChar '-' mt = l1) (hk : splitOnChar '-' key = l2) (hne : l1 ≠ l2) :
    mt ≠ key := by
  intro heq
  exact hne (by rw [← h, heq, hk])

theorem parseMachineType_three {mt f c t3 : GoStr} {rest : List GoStr}
    (h : splitOnChar '-' mt = f :: c :: t3 :: rest) :
    parseMachineType mt =
      (match sscanfD t3 with
      | none => Except.error MTErr.invalidVCPU
      | some vcpuCount =>
        if vcpuCount = 0 then Except.error MTErr.undeterminedVCPU
        else Except.ok ⟨f, vcpuCount, memOf c vcpuCount⟩) := by
  have hlen : (f :: c :: t3 :: rest : List GoStr) ≠ [gs "e2", gs "micro"] := by simp
  have hlen2 : (f :: c :: t3 :: rest : List GoStr) ≠ [gs "e2", gs "small"] := by simp
  have hlen3 : (f :: c :: t3 :: rest : List GoStr) ≠ [gs "e2", gs "medium"] := by simp
  have hlen4 : (f :: c :: t3 :: rest : List GoStr) ≠ [gs "f1", gs "micro"] := by simp
  have hlen5 : (f :: c :: t3 :: rest : List GoStr) ≠ [gs "g1", gs "small"] := by simp
  have hne1 := ne_of_splitOnChar_ne h
    (by decide : splitOnChar '-' (gs "e2-micro") = [gs "e2", gs "micro"]) hlen
  have hne2 := ne_of_splitOnChar_ne h
    (by decide : splitOnChar '-' (gs "e2-small") = [gs "e2", gs "small"]) hlen2
  have hne3 := ne_of_splitOnChar_ne h
    (by decide : splitOnChar '-' (gs "e2-medium") = [gs "e2", gs "medium"]) hlen3
  have hne4 := ne_of_splitOnChar_ne h
    (by decide : splitOnChar '-' (gs "f1-micro") = [gs "f1", gs "micro"]) hlen4
  have hne5 := ne_of_splitOnChar_ne h
    (by decide : splitOnChar '-' (gs "g1-small") = [gs "g1", gs "small"]) hlen5
  unfold parseMachineType
  rw [h]
  simp only [if_neg hne1, if_neg hne2, if_neg hne3, if_neg hne4, if_neg hne5]

theorem parseMachineType_two {mt f c : GoStr}
    (h : splitOnChar '-' mt = [f, c])
    (h1 : mt ≠ gs "e2-micro") (h2 : mt ≠ gs "e2-small") (h3 : mt ≠ gs "e2-medium")
    (h4 : mt ≠ gs "f1-micro") (h5 : mt ≠ gs "g1-small") :
    parseMachineType mt = Except.error MTErr.undeterminedVCPU := by
  unfold parseMachineType
  rw [h]
  simp only [if_neg h1, if_neg h2, if_neg h3, if_neg h4, if_neg h5]

theorem parseMachineType_short {mt x : GoStr} (h : splitOnChar '-' mt = [x]) :
    parseMachineType mt = Except.error MTErr.invalidFormat := by
  unfold parseMachineType
  rw [h]

/-- C6. The shape resolver returns the exact tabled shape for every
well-known fixed-shape identifier — in particular `"e2-micro"` resolves to
`{family := "e2", vcpus := 2, memoryGB := 1.0}` — and for every
standard-class identifier `<family>-standard-<n>` (dash-free family, `n` a
positive decimal numeral) it returns `vcpus = n` and
`memoryGB = n * 3.75`. -/
theorem claim_C6 :
    (parseMachineType (gs "e2-micro") = Except.ok ⟨gs "e2", 2, 1⟩
      ∧ parseMachineType (gs "e2-small") = Except.ok ⟨gs "e2", 2, 2⟩
      ∧ parseMachineType (gs "e2-medium") = Except.ok ⟨gs "e2", 2, 4⟩
      ∧ parseMachineType (gs "f1-micro") = Except.ok ⟨gs "f1", 1, 3 / 5⟩
      ∧ parseMachineType (gs "g1-small") = Except.ok ⟨gs "g1", 1, 17 / 10⟩)
    ∧ ∀ (family digits : GoStr) (n : Nat),
        '-' ∉ family → digits ≠ [] → allDigits digits = true → digitsToNat digits = n →
        0 < n →
        parseMachineType (family ++ gs "-standard-" ++ digits) =
          Except.ok ⟨family, (n : Int), (n : ℚ) * (15 / 4)⟩ := by
  refine ⟨⟨by with_unfolding_all decide, by with_unfolding_all decide,
    by with_unfolding_all decide, by with_unfolding_all decide,
    by with_unfolding_all decide⟩, ?_⟩
  intro family digits n hfam hdigne hall hdig hn
  have hdignot : '-' ∉ digits := by
    intro hmem
    have := List.all_eq_true.mp hall '-' hmem
    exact absurd this (by decide)
  have hstd : '-' ∉ gs "standard" := by decide
  have e1 : family ++ gs "-standard-" ++ digits
      = family ++ '-' :: (gs "standard" ++ '-' :: digits) := by
    rw [List.append_assoc]
    rfl
  have hsplit : splitOnChar '-' (family ++ gs "-standard-" ++ digits)
      = [family, gs "standard", digits] := by
    rw [e1, splitOnChar_append_sep _ hfam, splitOnChar_append_sep _ hstd,
      splitOnChar_of_not_mem hdignot]
  rw [parseMachineType_three hsplit, sscanfD_all_digits hdigne hall, hdig]
  have hn0 : (n : Int) ≠ 0 := by exact_mod_cast hn.ne'
  simp only [if_neg hn0]
  rw [memOf, if_pos rfl]
  norm_cast

/-- Witness for C6 instantiating the standard-class branch at
`"n2-standard-2"`, which resolves to 2 vCPUs and 7.5 GB. -/
theorem claim_C6_witness :
    parseMachineType (gs "n2" ++ gs "-standard-" ++ gs "2")
      = Except.ok ⟨gs "n2", (2 : Int), (2 : ℚ) * (15 / 4)⟩ :=
  claim_C6.2 (gs "n2") (gs "2") 2 (by decide) (by decide) (by decide) (by decide)
    (by decide)

/-- Counterexample to C7 as stated. The third token `"3x"` of
`"n2-standard-3x"` is not a positive integer, yet the resolver does NOT
return a format error: Go's `fmt.Sscanf("%d")` reads the leading digit
run `3` and silently ignores the trailing `x`, so the resolver succeeds
with 3 vCPUs. Moreover a third token `"0"` (not a positive
integer either) produces the unresolvable-shape error, not a format
error. -/
theorem claim_C7_counterexample :
    parseMachineType (gs "n2-standard-3x") = Except.ok ⟨gs "n2", 3, 45 / 4⟩
    ∧ parseMachineType (gs "n2-standard-0") = Except.error MTErr.undeterminedVCPU := by
  constructor
  · with_unfolding_all decide
  · with_unfolding_all decide

/-- C7 (amended). For identifiers not in the fixed-shape table: fewer than
two dash-delimited tokens yields the format error; a third token on which
`Sscanf %d` fails (no leading optionally-signed digit run after spaces)
yields the vCPU-format error; a third token scanning to `0`, or a missing
third token, yields the unresolvable-shape error; and a third token
scanning to a nonzero count `v` (possibly with trailing junk, as in
`"3x"`) succeeds with `v` vCPUs — in the three error cases no
`MachineShape` is produced. -/
theorem claim_C7_amended :
    (∀ mt : GoStr, (splitOnChar '-' mt).length < 2 →
      parseMachineType mt = Except.error MTErr.invalidFormat)
    ∧ (∀ (mt f c t3 : GoStr) (rest : List GoStr),
        splitOnChar '-' mt = f :: c :: t3 :: rest → sscanfD t3 = none →
        parseMachineType mt = Except.error MTErr.invalidVCPU)
    ∧ (∀ (mt f c t3 : GoStr) (rest : List GoStr),
        splitOnChar '-' mt = f :: c :: t3 :: rest → sscanfD t3 = some 0 →
        parseMachineType mt = Except.error MTErr.undeterminedVCPU)
    ∧ (∀ mt f c : GoStr, splitOnChar '-' mt = [f, c] →
        mt ≠ gs "e2-micro" → mt ≠ gs "e2-small" → mt ≠ gs "e2-medium" →
        mt ≠ gs "f1-micro" → mt ≠ gs "g1-small" →
        parseMachineType mt = Except.error MTErr.undeterminedVCPU)
    ∧ (∀ (mt f c t3 : GoStr) (rest : List GoStr) (v : Int),
        splitOnChar '-' mt = f :: c :: t3 :: rest → sscanfD t3 = some v → v ≠ 0 →
        parseMachineType mt = Except.ok ⟨f, v, memOf c v⟩) := by
  refine ⟨?_, ?_, ?_, ?_, ?_⟩
  · intro mt hlen
    cases hsp : splitOnChar '-' mt with
    | nil => exact absurd hsp (splitOnChar_ne_nil '-' mt)
    | cons x rest =>
      cases rest with
      | nil => exact parseMachineType_short hsp
      | cons y rest2 =>
        rw [hsp] at hlen
        simp at hlen
        omega
  · intro mt f c t3 rest hsp hscan
    rw [parseMachineType_three hsp, hscan]
  · intro mt f c t3 rest hsp hscan
    rw [parseMachineType_three hsp, hscan]
    simp
  · intro mt f c hsp h1 h2 h3 h4 h5
    exact parseMachineType_two hsp h1 h2 h3 h4 h5
  · intro mt f c t3 rest v hsp hscan hv
    rw [parseMachineType_three hsp, hscan]
    simp [hv]

/-- Witness for the amended C7, exercising each branch on a concrete
identifier: `"abc"` (format error), `"n2-standard-x"` (vCPU-format error),
`"n2-standard-0"` and `"n2-standard"` (unresolvable), and
`"n2-highmem-4"` (success). -/
theorem claim_C7_witness :
    parseMachineType (gs "abc") = Except.error MTErr.invalidFormat
    ∧ parseMachineType (gs "n2-standard-x") = Except.error MTErr.invalidVCPU
    ∧ parseMachineType (gs "n2-standard-0") = Except.error MTErr.undeterminedVCPU
    ∧ parseMachineType (gs "n2-standard") = Except.error MTErr.undeterminedVCPU
    ∧ parseMachineType (gs "n2-highmem-4")
        = Except.ok ⟨gs "n2", 4, memOf (gs "highmem") 4⟩ := by
  refine ⟨?_, ?_, ?_, ?_, ?_⟩
  · exact claim_C7_amended.1 (gs "abc") (by decide)
  · exact claim_C7_amended.2.1 (gs "n2-standard-x") (gs "n2") (gs "standard") (gs "x")
      [] (by decide) (by decide)
  · exact claim_C7_amended.2.2.1 (gs "n2-standard-0") (gs "n2") (gs "standard") (gs "0")
      [] (by decide) (by decide)
  · exact claim_C7_amended.2.2.2.1 (gs "n2-standard") (gs "n2") (gs "standard")
      (by decide) (by decide) (by decide) (by decide) (by decide) (by decide)
  · exact claim_C7_amended.2.2.2.2 (gs "n2-highmem-4") (gs "n2") (gs "highmem")
      (gs "4") [] 4 (by decide) (by decide) (by decide)

theorem pageFirstMatch_exists {f : Sku → Bool} {skus : List Sku} {p : ℚ}
    (h : pageFirstMatch f skus = some p) :
    ∃ sku ∈ skus, f sku = true ∧ skuFirstPrice sku = some p := by
  induction skus with
  | nil => simp [pageFirstMatch] at h
  | cons sku rest ih =>
    rw [pageFirstMatch] at h
    by_cases hf : f sku = true
    · rw [if_pos hf] at h
      cases hsp : skuFirstPrice sku with
      | none =>
        rw [hsp] at h
        have h' : pageFirstMatch f rest = some p := h
        obtain ⟨s, hs, h1, h2⟩ := ih h'
        exact ⟨s, List.mem_cons_of_mem sku hs, h1, h2⟩
      | some q =>
        rw [hsp] at h
        have h' : some q = some p := h
        exact ⟨sku, List.mem_cons_self sku rest, hf, by rw [hsp, Option.some_inj.mp h']⟩
    · rw [if_neg hf] at h
      obtain ⟨s, hs, h1, h2⟩ := ih h
      exact ⟨s, List.mem_cons_of_mem sku hs, h1, h2⟩

theorem pagesScan_foldl_eq (f : Sku → Bool) (pages : List Page) (init : ℚ) :
    pages.foldl (fun price page => (pageFirstMatch f page.skus).getD price) init
      = (lastMatchAcrossPages f pages).getD init := by
  induction pages generalizing init with
  | nil => simp [lastMatchAcrossPages]
  | cons pg rest ih =>
    rw [List.foldl_cons, ih, lastMatchAcrossPages]
    cases hl : lastMatchAcrossPages f rest with
    | some p => simp
    | none => simp

theorem foldl_no_match {f : Sku → Bool} {pages : List Page} (init : ℚ)
    (h : ∀ pg ∈ pages, pageFirstMatch f pg.skus = none) :
    pages.foldl (fun price page => (pageFirstMatch f page.skus).getD price) init
      = init := by
  induction pages generalizing init with
  | nil => simp
  | cons pg rest ih =>
    rw [List.foldl_cons, h pg (List.mem_cons_self pg rest), Option.getD_none]
    exact ih init (fun q hq => h q (List.mem_cons_of_mem pg hq))

theorem pagesScan_cases (f : Sku → Bool) (pages : List Page) (init : ℚ) :
    pages.foldl (fun price page => (pageFirstMatch f page.skus).getD price) init = init
    ∨ ∃ sku ∈ pages.flatMap Page.skus, f sku = true ∧ skuFirstPrice sku
        = some (pages.foldl
            (fun price page => (pageFirstMatch f page.skus).getD price) init) := by
  induction pages generalizing init with
  | nil => exact Or.inl (by simp)
  | cons pg rest ih =>
    rw [List.foldl_cons]
    rcases ih ((pageFirstMatch f pg.skus).getD init) with h | h
    · rw [h]
      cases hpm : pageFirstMatch f pg.skus with
      | none => exact Or.inl (by simp)
      | some p =>
        right
        simp only [Option.getD_some]
        obtain ⟨sku, hs, h1, h2⟩ := pageFirstMatch_exists hpm
        refine ⟨sku, ?_, h1, h2⟩
        rw [List.flatMap_cons]
        exact List.mem_append.mpr (Or.inl hs)
    · right
      obtain ⟨sku, hs, h1, h2⟩ := h
      refine ⟨sku, ?_, h1, h2⟩
      rw [List.flatMap_cons]
      exact List.mem_append.mpr (Or.inr hs)

theorem matchesVCPUSku_region {sku : Sku} {region family : GoStr}
    (h : matchesVCPUSku sku region family = true) : region ∈ sku.serviceRegions := by
  simp only [matchesVCPUSku] at h
  split_ifs at h
  exact (regionListHas_iff _ _).mp h

theorem matchesMemorySku_region {sku : Sku} {region family : GoStr}
    (h : matchesMemorySku sku region family = true) : region ∈ sku.serviceRegions := by
  simp only [matchesMemorySku] at h
  split_ifs at h
  exact (regionListHas_iff _ _).mp h

theorem getVCPUPrice_exists {pages : List Page} {region family : GoStr} {p : ℚ}
    (h : getVCPUPrice pages region family = Except.ok p) :
    ∃ sku ∈ pages.flatMap Page.skus, matchesVCPUSku sku region family = true
      ∧ region ∈ sku.serviceRegions ∧ skuFirstPrice sku = some p := by
  simp only [getVCPUPrice, pagesScanPrice] at h
  by_cases hz : (pages.foldl (fun price page =>
      (pageFirstMatch (fun sku => matchesVCPUSku sku region family) page.skus).getD price)
      0) = 0
  · rw [if_pos hz] at h
    exact absurd h (by simp)
  · rw [if_neg hz] at h
    have h' : p = pages.foldl (fun price page =>
        (pageFirstMatch (fun sku => matchesVCPUSku sku region family) page.skus).getD price)
        0 := by
      injection h with h
      exact h.symm
    rcases pagesScan_cases (fun sku => matchesVCPUSku sku region family) pages 0 with
      hc | ⟨sku, hs, h1, h2⟩
    · exact absurd hc hz
    · exact ⟨sku, hs, h1, matchesVCPUSku_region h1, by rw [h2, h']⟩

theorem getMemoryPrice_exists {pages : List Page} {region family : GoStr} {p : ℚ}
    (h : getMemoryPrice pages region family = Except.ok p) :
    ∃ sku ∈ pages.flatMap Page.skus, matchesMemorySku sku region family = true
      ∧ region ∈ sku.serviceRegions ∧ skuFirstPrice sku = some p := by
  simp only [getMemoryPrice, pagesScanPrice] at h
  by_cases hz : (pages.foldl (fun price page =>
      (pageFirstMatch (fun sku => matchesMemorySku sku region family) page.skus).getD price)
      0) = 0
  · rw [if_pos hz] at h
    exact absurd h (by simp)
  · rw [if_neg hz] at h
    have h' : p = pages.foldl (fun price page =>
        (pageFirstMatch (fun sku => matchesMemorySku sku region family) page.skus).getD price)
        0 := by
      injection h with h
      exact h.symm
    rcases pagesScan_cases (fun sku => matchesMemorySku sku region family) pages 0 with
      hc | ⟨sku, hs, h1, h2⟩
    · exact absurd hc hz
    · exact ⟨sku, hs, h1, matchesMemorySku_region h1, by rw [h2, h']⟩

/-- Counterexample to C3 as stated. With a matching SKU at 0.01 on page 1
and another at 0.02 on page 2, the matcher returns page 2's price: the
`return nil` inside the `Pages` callback does not stop pagination, so the
later page's match overwrites the earlier one. The spec-side first-match
rule would return 0.01. -/
theorem claim_C3_counterexample :
    getVCPUPrice c3Pages (gs "us-central1") (gs "n2") = Except.ok (1 / 50)
    ∧ specFirstMatchPrice
        (fun sku => matchesVCPUSku sku (gs "us-central1") (gs "n2")) c3Pages
      = some (1 / 100) := by
  constructor
  · with_unfolding_all decide
  · with_unfolding_all decide

/-- C3 (amended). Within one page the first matching SKU wins and later
SKUs of that page never replace it, but pagination always continues and a
match on a later page replaces an earlier page's match: the scan computes
the first-match price of the LAST page containing a match. Consequently
the claimed first-match-in-catalog-order rule holds exactly when at most
one page contains a matching SKU. -/
theorem claim_C3_amended :
    (∀ (f : Sku → Bool) (pages : List Page),
      pagesScanPrice f pages = (lastMatchAcrossPages f pages).getD 0)
    ∧ (∀ (f : Sku → Bool) (pages : List Page),
        (pages.countP fun pg => (pageFirstMatch f pg.skus).isSome) ≤ 1 →
        pagesScanPrice f pages = (specFirstMatchPrice f pages).getD 0) := by
  constructor
  · intro f pages
    exact pagesScan_foldl_eq f pages 0
  · intro f pages
    induction pages with
    | nil => intro _; simp [pagesScanPrice, specFirstMatchPrice]
    | cons pg rest ih =>
      intro hcount
      rw [List.countP_cons] at hcount
      cases hpm : pageFirstMatch f pg.skus with
      | some p =>
        have hc0 : (rest.countP fun q => (pageFirstMatch f q.skus).isSome) = 0 := by
          simp only [hpm, Option.isSome_some, if_pos] at hcount
          omega
        have hall : ∀ q ∈ rest, pageFirstMatch f q.skus = none := by
          intro q hq
          have h0 := List.countP_eq_zero.mp hc0 q hq
          simpa using h0
        simp only [pagesScanPrice]
        rw [List.foldl_cons, hpm]
        simp only [Option.getD_some]
        rw [foldl_no_match p hall, specFirstMatchPrice, hpm]
        rfl
      | none =>
        have hc1 : (rest.countP fun q => (pageFirstMatch f q.skus).isSome) ≤ 1 := by
          simp only [hpm, Option.isSome_none] at hcount
          omega
        have hrec := ih hc1
        simp only [pagesScanPrice] at hrec ⊢
        rw [List.foldl_cons, hpm, Option.getD_none, specFirstMatchPrice, hpm]
        exact hrec

/-- Witness for the amended C3 on a catalog where only the first page has a
match: there the first-match rule does hold. -/
theorem claim_C3_witness :
    pagesScanPrice (fun sku => matchesVCPUSku sku (gs "us-central1") (gs "n2"))
        [⟨[c3CoreSkuA]⟩, ⟨[]⟩]
      = (specFirstMatchPrice (fun sku => matchesVCPUSku sku (gs "us-central1") (gs "n2"))
          [⟨[c3CoreSkuA]⟩, ⟨[]⟩]).getD 0 :=
  claim_C3_amended.2 _ [⟨[c3CoreSkuA]⟩, ⟨[]⟩] (by with_unfolding_all decide)

/-- C8. Whenever either dimension lookup returns a price, that price was
read off a SKU of the scanned catalog that satisfies the dimension's
matcher — in particular one whose `serviceRegions` list contains the
requested region. -/
theorem claim_C8 (pages : List Page) (region family : GoStr) (p : ℚ) :
    (getVCPUPrice pages region family = Except.ok p →
      ∃ sku ∈ pages.flatMap Page.skus, matchesVCPUSku sku region family = true
        ∧ region ∈ sku.serviceRegions ∧ skuFirstPrice sku = some p)
    ∧ (getMemoryPrice pages region family = Except.ok p →
      ∃ sku ∈ pages.flatMap Page.skus, matchesMemorySku sku region family = true
        ∧ region ∈ sku.serviceRegions ∧ skuFirstPrice sku = some p) :=
  ⟨getVCPUPrice_exists, getMemoryPrice_exists⟩

/-- Witness for C8 on the scenario B catalog, for both dimensions. -/
theorem claim_C8_witness :
    (∃ sku ∈ scenarioBPages.flatMap Page.skus,
      matchesVCPUSku sku (gs "us-central1") (gs "n2") = true
        ∧ gs "us-central1" ∈ sku.serviceRegions ∧ skuFirstPrice sku = some (3 / 100))
    ∧ (∃ sku ∈ scenarioBPages.flatMap Page.skus,
      matchesMemorySku sku (gs "us-central1") (gs "n2") = true
        ∧ gs "us-central1" ∈ sku.serviceRegions ∧ skuFirstPrice sku = some (1 / 250)) := by
  constructor
  · exact (claim_C8 scenarioBPages (gs "us-central1") (gs "n2") (3 / 100)).1
      (by with_unfolding_all decide)
  · exact (claim_C8 scenarioBPages (gs "us-central1") (gs "n2") (1 / 250)).2
      (by with_unfolding_all decide)

/-- C4. For every provider-B target, a successful fetch returns exactly
`corePrice * vcpus + memoryPrice * memoryGB` built from the two independent
dimension lookups, and if either lookup fails the whole fetch returns an
error and no price record is constructed. -/
theorem claim_C4 :
    (∀ (pages : List Page) (region mt : GoStr) (sh : MachineShape) (cp mp : ℚ),
      parseMachineType mt = Except.ok sh →
      getVCPUPrice pages region sh.family = Except.ok cp →
      getMemoryPrice pages region sh.family = Except.ok mp →
      fetchPricingGCP pages region mt
        = Except.ok ⟨gs "gcp", region, mt, cp * (sh.vcpus : ℚ) + mp * sh.memoryGB,
            sh.memoryGB, sh.vcpus⟩)
    ∧ (∀ (pages : List Page) (region mt : GoStr) (sh : MachineShape),
      parseMachineType mt = Except.ok sh →
      ((∃ e, getVCPUPrice pages region sh.family = Except.error e)
        ∨ (∃ e, getMemoryPrice pages region sh.family = Except.error e)) →
      ∃ e, fetchPricingGCP pages region mt = Except.error e) := by
  constructor
  · intro pages region mt sh cp mp hmt hv hm
    simp only [fetchPricingGCP, hmt, hv, hm]
  · intro pages region mt sh hmt herr
    rcases herr with ⟨e, he⟩ | ⟨e, he⟩
    · exact ⟨e, by simp only [fetchPricingGCP, hmt, he]⟩
    · cases hv : getVCPUPrice pages region sh.family with
      | error e2 => exact ⟨e2, by simp only [fetchPricingGCP, hmt, hv]⟩
      | ok cp => exact ⟨e, by simp only [fetchPricingGCP, hmt, hv, he]⟩

/-- Witness for C4: the spec's end-to-end scenario B. `n2-standard-2` in
us-central1 against `scenarioBPages` yields
`0.03 * 2 + 0.004 * 7.5 = 0.09`. -/
theorem claim_C4_witness :
    fetchPricingGCP scenarioBPages (gs "us-central1") (gs "n2-standard-2")
      = Except.ok ⟨gs "gcp", gs "us-central1", gs "n2-standard-2", 9 / 100, 15 / 2, 2⟩ := by
  have h := claim_C4.1 scenarioBPages (gs "us-central1") (gs "n2-standard-2")
    ⟨gs "n2", 2, 15 / 2⟩ (3 / 100) (1 / 250) (by with_unfolding_all decide)
    (by with_unfolding_all decide) (by with_unfolding_all decide)
  rw [h]
  with_unfolding_all decide

theorem scanDims_nonneg {dims : List (GoStr × JVal)} (hd : dimsNonneg dims = true)
    {hp : ℚ} (hhp : 0 ≤ hp) : 0 ≤ scanDims hp dims := by
  induction dims generalizing hp with
  | nil => simpa [scanDims] using hhp
  | cons x rest ih =>
    obtain ⟨k, d⟩ := x
    simp only [dimsNonneg, List.all_cons, Bool.and_eq_true] at hd
    obtain ⟨hd1, hd2⟩ := hd
    cases hds : dimStep d with
    | none =>
      simp only [scanDims, hds]
      exact ih hd2 hhp
    | some o =>
      cases o with
      | none =>
        simp only [scanDims, hds]
        exact ih hd2 le_rfl
      | some v =>
        simp only [scanDims, hds]
        rw [hds] at hd1
        exact of_decide_eq_true hd1

theorem scanTerms_nonneg {od : List (GoStr × JVal)} (ht : termsNonneg od = true)
    {hp : ℚ} (hhp : 0 ≤ hp) : 0 ≤ scanTerms hp od := by
  induction od generalizing hp with
  | nil => simpa [scanTerms] using hhp
  | cons x rest ih =>
    obtain ⟨k, t⟩ := x
    simp only [termsNonneg, List.all_cons, Bool.and_eq_true] at ht
    obtain ⟨ht1, ht2⟩ := ht
    cases hts : termStep t with
    | none =>
      simp only [scanTerms, hts]
      exact ih ht2 hhp
    | some pd =>
      simp only [scanTerms, hts]
      have hd : dimsNonneg pd = true := by rw [hts] at ht1; exact ht1
      by_cases hgt : 0 < scanDims hp pd
      · rw [if_pos hgt]
        exact le_of_lt hgt
      · rw [if_neg hgt]
        exact ih ht2 (scanDims_nonneg hd hhp)

theorem dimsFirstPositive_pos {dims : List (GoStr × JVal)} {v : ℚ}
    (h : dimsFirstPositive dims = some v) : 0 < v := by
  induction dims with
  | nil => simp [dimsFirstPositive] at h
  | cons x rest ih =>
    obtain ⟨k, d⟩ := x
    simp only [dimsFirstPositive] at h
    cases hds : dimStep d with
    | none =>
      rw [hds] at h
      exact ih h
    | some o =>
      cases o with
      | none =>
        rw [hds] at h
        exact ih h
      | some w =>
        rw [hds] at h
        have h' : (if 0 < w then some w else dimsFirstPositive rest) = some v := h
        by_cases hw : 0 < w
        · rw [if_pos hw] at h'
          obtain rfl := Option.some_inj.mp h'
          exact hw
        · rw [if_neg hw] at h'
          exact ih h'

theorem scanDims_firstPos {dims : List (GoStr × JVal)} (hall : dimsAllPos dims = true) :
    scanDims 0 dims = (dimsFirstPositive dims).getD 0 := by
  induction dims with
  | nil => simp [scanDims, dimsFirstPositive]
  | cons x rest ih =>
    obtain ⟨k, d⟩ := x
    simp only [dimsAllPos, List.all_cons, Bool.and_eq_true] at hall
    obtain ⟨h1, h2⟩ := hall
    cases hds : dimStep d with
    | none =>
      simp only [scanDims, dimsFirstPositive, hds]
      exact ih h2
    | some o =>
      cases o with
      | none =>
        simp only [scanDims, dimsFirstPositive, hds]
        exact ih h2
      | some v =>
        simp only [scanDims, dimsFirstPositive, hds]
        have hv : 0 < v := by
          rw [hds] at h1
          exact of_decide_eq_true h1
        rw [if_pos hv, Option.getD_some]

theorem scanTerms_firstPos {od : List (GoStr × JVal)} (hall : termsAllPos od = true) :
    scanTerms 0 od = (specFirstPositiveUSD od).getD 0 := by
  induction od with
  | nil => simp [scanTerms, specFirstPositiveUSD]
  | cons x rest ih =>
    obtain ⟨k, t⟩ := x
    simp only [termsAllPos, List.all_cons, Bool.and_eq_true] at hall
    obtain ⟨h1, h2⟩ := hall
    cases hts : termStep t with
    | none =>
      simp only [scanTerms, specFirstPositiveUSD, hts]
      exact ih h2
    | some pd =>
      simp only [scanTerms, specFirstPositiveUSD, hts]
      have hdall : dimsAllPos pd = true := by rw [hts] at h1; exact h1
      rw [scanDims_firstPos hdall]
      cases hfp : dimsFirstPositive pd with
      | some v =>
        have hv := dimsFirstPositive_pos hfp
        simp [hv]
      | none =>
        simp only [Option.getD_none, lt_self_iff_false, if_false]
        exact ih h2

theorem pagesScan_nonneg {pages : List Page} (hall : pagesNonneg pages = true)
    (f : Sku → Bool) {init : ℚ} (hinit : 0 ≤ init) :
    0 ≤ pages.foldl (fun price page => (pageFirstMatch f page.skus).getD price) init := by
  induction pages generalizing init with
  | nil => simpa using hinit
  | cons pg rest ih =>
    simp only [pagesNonneg, List.all_cons, Bool.and_eq_true] at hall
    obtain ⟨h1, h2⟩ := hall
    rw [List.foldl_cons]
    refine ih h2 ?_
    cases hpm : pageFirstMatch f pg.skus with
    | none => simpa using hinit
    | some p =>
      simp only [Option.getD_some]
      obtain ⟨sku, hs, hf, hsp⟩ := pageFirstMatch_exists hpm
      have hne := List.all_eq_true.mp h1 sku hs
      rw [hsp] at hne
      exact of_decide_eq_true hne

theorem getVCPUPrice_pos {pages : List Page} {region family : GoStr} {cp : ℚ}
    (hnn : pagesNonneg pages = true)
    (h : getVCPUPrice pages region family = Except.ok cp) : 0 < cp := by
  simp only [getVCPUPrice, pagesScanPrice] at h
  by_cases hz : (pages.foldl (fun price page =>
      (pageFirstMatch (fun sku => matchesVCPUSku sku region family) page.skus).getD price)
      0) = 0
  · rw [if_pos hz] at h
    exact absurd h (by simp)
  · rw [if_neg hz] at h
    injection h with h2
    rw [← h2]
    exact lt_of_le_of_ne (pagesScan_nonneg hnn _ le_rfl) (Ne.symm hz)

theorem getMemoryPrice_pos {pages : List Page} {region family : GoStr} {mp : ℚ}
    (hnn : pagesNonneg pages = true)
    (h : getMemoryPrice pages region family = Except.ok mp) : 0 < mp := by
  simp only [getMemoryPrice, pagesScanPrice] at h
  by_cases hz : (pages.foldl (fun price page =>
      (pageFirstMatch (fun sku => matchesMemorySku sku region family) page.skus).getD price)
      0) = 0
  · rw [if_pos hz] at h
    exact absurd h (by simp)
  · rw [if_neg hz] at h
    injection h with h2
    rw [← h2]
    exact lt_of_le_of_ne (pagesScan_nonneg hnn _ le_rfl) (Ne.symm hz)

theorem parseMachineType_pos {mt : GoStr} {sh : MachineShape}
    (h : parseMachineType mt = Except.ok sh) : 1 ≤ sh.vcpus ∧ 0 < sh.memoryGB := by
  cases hsp : splitOnChar '-' mt with
  | nil => exact absurd hsp (splitOnChar_ne_nil '-' mt)
  | cons f rest =>
    cases rest with
    | nil =>
      rw [parseMachineType_short hsp] at h
      simp at h
    | cons c rest2 =>
      by_cases k1 : mt = gs "e2-micro"
      · rw [k1, (by with_unfolding_all decide :
          parseMachineType (gs "e2-micro") = Except.ok ⟨gs "e2", 2, 1⟩)] at h
        injection h with h2
        rw [← h2]
        exact ⟨by decide, by norm_num⟩
      by_cases k2 : mt = gs "e2-small"
      · rw [k2, (by with_unfolding_all decide :
          parseMachineType (gs "e2-small") = Except.ok ⟨gs "e2", 2, 2⟩)] at h
        injection h with h2
        rw [← h2]
        exact ⟨by decide, by norm_num⟩
      by_cases k3 : mt = gs "e2-medium"
      · rw [k3, (by with_unfolding_all decide :
          parseMachineType (gs "e2-medium") = Except.ok ⟨gs "e2", 2, 4⟩)] at h
        injection h with h2
        rw [← h2]
        exact ⟨by decide, by norm_num⟩
      by_cases k4 : mt = gs "f1-micro"
      · rw [k4, (by with_unfolding_all decide :
          parseMachineType (gs "f1-micro") = Except.ok ⟨gs "f1", 1, 3 / 5⟩)] at h
        injection h with h2
        rw [← h2]
        exact ⟨by decide, by norm_num⟩
      by_cases k5 : mt = gs "g1-small"
      · rw [k5, (by with_unfolding_all decide :
          parseMachineType (gs "g1-small") = Except.ok ⟨gs "g1", 1, 17 / 10⟩)] at h
        injection h with h2
        rw [← h2]
        exact ⟨by decide, by norm_num⟩
      cases rest2 with
      | nil =>
        rw [parseMachineType_two hsp k1 k2 k3 k4 k5] at h
        simp at h
      | cons t3 rest3 =>
        rw [parseMachineType_three hsp] at h
        cases hsc : sscanfD t3 with
        | none =>
          rw [hsc] at h
          have h' : (Except.error MTErr.invalidVCPU : Except MTErr MachineShape)
              = Except.ok sh := h
          simp at h'
        | some v =>
          rw [hsc] at h
          have h' : (if v = 0 then Except.error MTErr.undeterminedVCPU
              else Except.ok ⟨f, v, memOf c v⟩) = Except.ok sh := h
          by_cases hv0 : v = 0
          · rw [if_pos hv0] at h'
            simp at h'
          · rw [if_neg hv0] at h'
            injection h' with h2
            have ht3 : '-' ∉ t3 := by
              refine not_mem_of_mem_splitOnChar (s := mt) ?_
              rw [hsp]
              exact List.mem_cons_of_mem f (List.mem_cons_of_mem c
                (List.mem_cons_self t3 rest3))
            have hvge := sscanfD_nonneg ht3 hsc
            have hv1 : 1 ≤ v := by omega
            rw [← h2]
            refine ⟨hv1, ?_⟩
            have hvq : (0 : ℚ) < (v : ℚ) := by exact_mod_cast lt_of_lt_of_le one_pos hv1
            show 0 < memOf c v
            unfold memOf
            split_ifs
            · exact mul_pos hvq (by norm_num)
            · exact mul_pos hvq (by norm_num)
            · exact mul_pos hvq (by norm_num)
            · exact mul_pos hvq (by norm_num)

theorem fetchPricingAWS_ok_totalCost {priceList : List JVal}
    {region instanceType : GoStr} {vm : VMPricing}
    (h : fetchPricingAWS priceList region instanceType = Except.ok vm) :
    vm.TotalCost ≠ 0 ∧ (awsPriceListNonneg priceList = true → 0 < vm.TotalCost) := by
  cases priceList with
  | nil => simp [fetchPricingAWS] at h
  | cons doc rest =>
    simp only [fetchPricingAWS] at h
    cases hobj : asObj doc with
    | none => simp [hobj] at h
    | some priceData =>
      simp only [hobj] at h
      cases hprod : (jLookup priceData (gs "product")).bind asObj with
      | none => simp [hprod] at h
      | some product =>
        simp only [hprod] at h
        cases hattr : (jLookup product (gs "attributes")).bind asObj with
        | none => simp [hattr] at h
        | some attributes =>
          simp only [hattr] at h
          cases hterms : (jLookup priceData (gs "terms")).bind asObj with
          | none => simp [hterms] at h
          | some terms =>
            simp only [hterms] at h
            cases hod : (jLookup terms (gs "OnDemand")).bind asObj with
            | none => simp [hod] at h
            | some onDemand =>
              simp only [hod] at h
              by_cases hz : scanTerms 0 onDemand = 0
              · rw [if_pos hz] at h
                simp at h
              · rw [if_neg hz] at h
                injection h with h2
                refine ⟨?_, ?_⟩
                · rw [← h2]
                  exact hz
                · intro hnn
                  simp only [awsPriceListNonneg, hobj, hterms, hod] at hnn
                  rw [← h2]
                  exact lt_of_le_of_ne (scanTerms_nonneg hnn le_rfl) (Ne.symm hz)

set_option maxRecDepth 8192 in
/-- Counterexample to C1 as stated. The fetch guards only against a price
equal to zero (`if hourlyPrice == 0`), so a USD string parsing to a
negative float is returned as a constructed VMPricing with strictly
negative TotalCost — no error is raised. -/
theorem claim_C1_counterexample :
    fetchPricingAWS [c1NegDoc] (gs "us-east-1") (gs "t3.micro")
      = Except.ok ⟨gs "aws", gs "us-east-1", gs "t3.micro", -(1 / 2), 0, 0⟩
    ∧ (-(1 / 2) : ℚ) < 0 := by
  constructor
  · with_unfolding_all decide
  · norm_num

/-- C1 (amended). A VMPricing is only returned when the resolved price is
nonzero: provider A errors whenever the scanned hourly price is zero (so a
returned TotalCost is never zero), and provider B errors whenever either
per-dimension unit price resolves to zero. Under the additional assumption
that every unit price in the vendor data parses nonnegative — true of real
billing data, but not enforced by the code, which only checks `== 0` — the
returned TotalCost is strictly positive for both providers. -/
theorem claim_C1 :
    (∀ (priceList : List JVal) (region instanceType : GoStr) (vm : VMPricing),
      awsPriceListNonneg priceList = true →
      fetchPricingAWS priceList region instanceType = Except.ok vm →
      0 < vm.TotalCost)
    ∧ (∀ (pages : List Page) (region machineType : GoStr) (vm : VMPricing),
      pagesNonneg pages = true →
      fetchPricingGCP pages region machineType = Except.ok vm →
      0 < vm.TotalCost)
    ∧ (∀ (priceList : List JVal) (region instanceType : GoStr) (vm : VMPricing),
      fetchPricingAWS priceList region instanceType = Except.ok vm →
      vm.TotalCost ≠ 0) := by
  refine ⟨?_, ?_, ?_⟩
  · intro priceList region instanceType vm hnn h
    exact (fetchPricingAWS_ok_totalCost h).2 hnn
  · intro pages region machineType vm hnn h
    cases hmt : parseMachineType machineType with
    | error e => simp [fetchPricingGCP, hmt] at h
    | ok sh =>
      simp only [fetchPricingGCP, hmt] at h
      cases hv : getVCPUPrice pages region sh.family with
      | error e => simp [hv] at h
      | ok cp =>
        simp only [hv] at h
        cases hm : getMemoryPrice pages region sh.family with
        | error e => simp [hm] at h
        | ok mp =>
          simp only [hm] at h
          injection h with h2
          have hcp := getVCPUPrice_pos hnn hv
          have hmp := getMemoryPrice_pos hnn hm
          obtain ⟨hv1, hmem⟩ := parseMachineType_pos hmt
          have hvq : (1 : ℚ) ≤ (sh.vcpus : ℚ) := by exact_mod_cast hv1
          rw [← h2]
          exact add_pos (mul_pos hcp (lt_of_lt_of_le one_pos hvq))
            (mul_pos hmp hmem)
  · intro priceList region instanceType vm h
    exact (fetchPricingAWS_ok_totalCost h).1

/-- Evaluation of the provider-B fetch on the scenario-B catalog, assembled
from the three sub-evaluations. -/
theorem scenarioB_fetch_eval :
    fetchPricingGCP scenarioBPages (gs "us-central1") (gs "n2-standard-2")
      = Except.ok ⟨gs "gcp", gs "us-central1", gs "n2-standard-2", 9 / 100, 15 / 2, 2⟩ := by
  have h1 : parseMachineType (gs "n2-standard-2")
      = Except.ok ⟨gs "n2", 2, 15 / 2⟩ := by with_unfolding_all decide
  have h2 : getVCPUPrice scenarioBPages (gs "us-central1") (gs "n2")
      = Except.ok (3 / 100) := by with_unfolding_all decide
  have h3 : getMemoryPrice scenarioBPages (gs "us-central1") (gs "n2")
      = Except.ok (1 / 250) := by with_unfolding_all decide
  simp only [fetchPricingGCP, h1, h2, h3]
  have harith : (3 / 100 : ℚ) * (((2 : Int) : ℚ)) + (1 / 250) * (15 / 2) = 9 / 100 := by
    norm_num
  rw [harith]

set_option maxRecDepth 8192 in
/-- Witness for the amended C1 on nonnegative vendor data: a provider-A
document at USD 0.0416 and the scenario-B provider-B catalog both yield
positive totals. -/
theorem claim_C1_witness :
    0 < (VMPricing.mk (gs "aws") (gs "us-east-1") (gs "t3.micro") (26 / 625) 0 0).TotalCost
    ∧ 0 < (VMPricing.mk (gs "gcp") (gs "us-central1") (gs "n2-standard-2") (9 / 100)
        (15 / 2) 2).TotalCost := by
  constructor
  · exact claim_C1.1 [c1PosDoc] (gs "us-east-1") (gs "t3.micro")
      (VMPricing.mk (gs "aws") (gs "us-east-1") (gs "t3.micro") (26 / 625) 0 0)
      (by with_unfolding_all decide) (by with_unfolding_all decide)
  · exact claim_C1.2.1 scenarioBPages (gs "us-central1") (gs "n2-standard-2")
      (VMPricing.mk (gs "gcp") (gs "us-central1") (gs "n2-standard-2") (9 / 100)
        (15 / 2) 2)
      (by with_unfolding_all decide) scenarioB_fetch_eval

set_option maxRecDepth 8192 in
/-- Counterexample to C2 as stated. The spec-side rule skips the
zero-parsing dimension `d1` and selects `d2` at 0.05; the code instead
breaks out of the dimension loop at the FIRST dimension whose USD merely
parses (here `"0"`), never looks at `d2`, and the fetch then fails with
the no-valid-pricing error. -/
theorem claim_C2_counterexample :
    specFirstPositiveUSD c2OnDemand = some (1 / 20)
    ∧ scanTerms 0 c2OnDemand = 0
    ∧ fetchPricingAWS [c2Doc] (gs "us-east-1") (gs "t3.micro")
        = Except.error AWSErr.noValidPricing := by
  refine ⟨?_, ?_, ?_⟩
  · with_unfolding_all decide
  · with_unfolding_all decide
  · with_unfolding_all decide

/-- C2 (amended). The inner loop stops at the first dimension whose USD
string parses as a float at all, regardless of sign; a term is accepted
only if that value is positive. Hence the claimed behaviour — select the
first dimension in iteration order whose USD parses as a strictly positive
float, skipping absent/unparseable dimensions — holds exactly when every
dimension that parses at all parses strictly positive. -/
theorem claim_C2_amended (od : List (GoStr × JVal)) (h : termsAllPos od = true) :
    scanTerms 0 od = (specFirstPositiveUSD od).getD 0 :=
  scanTerms_firstPos h

set_option maxRecDepth 8192 in
/-- Witness for the amended C2: with only unparseable-or-positive
dimensions the scan agrees with the spec-side first-positive rule. -/
theorem claim_C2_witness :
    scanTerms 0 c2WitnessOnDemand = (specFirstPositiveUSD c2WitnessOnDemand).getD 0 :=
  claim_C2_amended c2WitnessOnDemand (by with_unfolding_all decide)
